import Mathlib

/-!
Verification of the brainsprite_widget sprite pipeline
(`brainsprite_widget/brainsprite.py` and `brainsprite_widget/traits.py`)
against its natural-language specification.

The shallow embedding below models numpy floating data as either a finite
rational or NaN (`F`), 3D volumes as index functions with explicit extents
(`Img`), and the tiling loop of `_data2sprite` as a fold of in-place tile
writes, mirroring the source line by line.
-/

namespace Brainsprite

/-- A numpy scalar: a finite value (modelled as a rational) or NaN. -/
inductive F where
  | num (q : ℚ)
  | nan
deriving DecidableEq

/-- IEEE-style addition on `F`: NaN is absorbing. Embeds the additions
performed by `np.sum`. -/
def F.add : F → F → F
  | F.num a, F.num b => F.num (a + b)
  | _, _ => F.nan

/-- `np.isnan` on a scalar. -/
def npIsnan : F → Bool
  | F.num _ => false
  | F.nan => true

/-- `np.nan_to_num` on a scalar: NaN becomes zero. -/
def npNanToNum : F → F
  | F.nan => F.num 0
  | x => x

/-- The finite value of a scalar (0 for NaN, as `np.nan_to_num` would give). -/
def toQ : F → ℚ
  | F.num q => q
  | F.nan => 0

/-- The finite value of a scalar, when it has one. -/
def toQopt : F → Option ℚ
  | F.num q => some q
  | F.nan => none

/-- `np.sum` over the flattened data. -/
def npSum (l : List F) : F := l.foldl F.add (F.num 0)

/-- `np.nanmin`: minimum ignoring NaNs; NaN when no finite value exists. -/
def nanminF (l : List F) : F :=
  match l.filterMap toQopt with
  | [] => F.nan
  | q :: qs => F.num (qs.foldl min q)

/-- `np.nanmax`: maximum ignoring NaNs; NaN when no finite value exists. -/
def nanmaxF (l : List F) : F :=
  match l.filterMap toQopt with
  | [] => F.nan
  | q :: qs => F.num (qs.foldl max q)

/-! ## The sprite tiler (`_data2sprite`) -/

/-- `nrows = int(np.ceil(np.sqrt(nx)))`: the ceiling of the square root,
computed through `Nat.sqrt` (which is the floor of the square root). -/
def nrows (nx : ℕ) : ℕ :=
  if Nat.sqrt nx * Nat.sqrt nx = nx then Nat.sqrt nx else Nat.sqrt nx + 1

/-- `ncolumns = int(np.ceil(nx / float(nrows)))`: ceiling division. -/
def ncols (nx : ℕ) : ℕ := (nx + nrows nx - 1) / nrows nx

/-- `indrow` from `np.where(np.ones((nrows, ncolumns)))`: row-major
enumeration of the grid, so the `xx`-th row index is `xx / ncolumns`. -/
def indrow (ncolumns xx : ℕ) : ℕ := xx / ncolumns

/-- `indcol` from `np.where(np.ones((nrows, ncolumns)))`: row-major
enumeration of the grid, so the `xx`-th column index is `xx % ncolumns`. -/
def indcol (ncolumns xx : ℕ) : ℕ := xx % ncolumns

/-- The region of the sprite covered by the write for slice `xx`:
`sprite[indrow[xx]*nz:(indrow[xx]+1)*nz, indcol[xx]*ny:(indcol[xx]+1)*ny]`. -/
def tileCond (ny nz ncolumns xx i j : ℕ) : Prop :=
  indrow ncolumns xx * nz ≤ i ∧ i < (indrow ncolumns xx + 1) * nz ∧
  indcol ncolumns xx * ny ≤ j ∧ j < (indcol ncolumns xx + 1) * ny

instance (ny nz ncolumns xx i j : ℕ) : Decidable (tileCond ny nz ncolumns xx i j) := by
  unfold tileCond; infer_instance

/-- One iteration of the loop body of `_data2sprite`: the slab assignment
`sprite[...] = data[xx, :, ::-1].transpose()`.  The right-hand side at
in-tile position `(r, c)` is `data[xx, c, nz - 1 - r]` (the third axis of
`data` is reversed by `::-1`, then the two slice axes are transposed). -/
def writeTile (ny nz ncolumns : ℕ) (data : ℕ → ℕ → ℕ → ℚ)
    (sprite : ℕ → ℕ → ℚ) (xx : ℕ) : ℕ → ℕ → ℚ := fun i j =>
  if tileCond ny nz ncolumns xx i j then
    data xx (j - indcol ncolumns xx * ny) (nz - 1 - (i - indrow ncolumns xx * nz))
  else sprite i j

/-- The `for xx in range(nx)` loop of `_data2sprite`, starting from the
zero array `np.zeros((nrows * nz, ncolumns * ny))`. -/
def spriteLoop (ny nz ncolumns : ℕ) (data : ℕ → ℕ → ℕ → ℚ) (n : ℕ) : ℕ → ℕ → ℚ :=
  (List.range n).foldl (writeTile ny nz ncolumns data) fun _ _ => 0

/-- `_data2sprite(data)` for a volume of shape `(nx, ny, nz)`. -/
def data2sprite (nx ny nz : ℕ) (data : ℕ → ℕ → ℕ → ℚ) : ℕ → ℕ → ℚ :=
  spriteLoop ny nz (ncols nx) data nx

/-! ## Volumes and the `save_sprite` pipeline -/

/-- A Niimg-like 3D volume: axis extents, voxel data, and a 4x4 affine. -/
structure Img where
  nx : ℕ
  ny : ℕ
  nz : ℕ
  data : ℕ → ℕ → ℕ → F
  affine : Fin 4 → Fin 4 → ℚ

/-- The flattened voxel values of a volume (C order). -/
def voxels (img : Img) : List F :=
  (List.range img.nx).flatMap fun x =>
    (List.range img.ny).flatMap fun y =>
      (List.range img.nz).map fun z => img.data x y z

/-- Modelled from the spec: nilearn's `fast_abs_percentile` (not part of this
repository) computes "a robust high percentile of absolute values" of the
data; modelled as the 80th-percentile order statistic of the absolute values
(the element at index `⌊size * 80 / 100⌋` of the sorted absolute values). -/
def fastAbsPercentile (l : List ℚ) : ℚ :=
  (List.insertionSort (· ≤ ·) (l.map fun q => |q|)).getD (l.length * 80 / 100) 0

/-- The `threshold` argument of `save_sprite`: `None`, `'auto'`, or a number. -/
inductive ThreshArg where
  | noThresh
  | auto
  | num (t : ℚ)

/-- The epsilon `1e-5` subtracted from the auto threshold. -/
def epsTh : ℚ := 1 / 100000

/-- A JSON value, as produced by `json.dumps` on the `params` dict. -/
inductive JVal where
  | jnum (x : F)
  | jint (n : ℕ)
  | jarr (elts : List JVal)
  | jobj (fields : List (String × JVal))

/-- `img.affine.tolist()`: the 4x4 affine as a nested array of numbers. -/
def affineJson (A : Fin 4 → Fin 4 → ℚ) : JVal :=
  JVal.jarr ((List.finRange 4).map fun i =>
    JVal.jarr ((List.finRange 4).map fun j => JVal.jnum (F.num (A i j))))

/-- Operations performed on the file handle opened for `output_json`. -/
inductive FileOp where
  | openW
  | write (s : JVal)
  | close

/-- `np.ma.masked_inside(sprite, -threshold, threshold)`: the two bounds are
sorted, then values inside the closed interval are masked
(`condition = (xf >= v1) & (xf <= v2)` in numpy's `masked_inside`). -/
def maskInside (t : ℚ) (v : ℚ) : Bool :=
  decide (min (-t) t ≤ v ∧ v ≤ max (-t) t)

/-- The mask applied to a sprite pixel by `save_sprite`'s masking step:
`masked_equal(sprite, 0)` when the threshold is zero, otherwise
`masked_inside(sprite, -threshold, threshold)`; no masking without threshold. -/
def maskOf (th : Option ℚ) (v : ℚ) : Bool :=
  match th with
  | Option.none => false
  | Option.some t => if t = 0 then decide (v = 0) else maskInside t v

/-- The observable outputs of one `save_sprite` call. -/
structure SpriteOut where
  sprite : ℕ → ℕ → ℚ
  mask : ℕ → ℕ → Bool
  threshold : Option ℚ
  vmin : F
  vmax : F
  warned : Bool
  dataF : List F
  shape : ℕ × ℕ × ℕ
  jsonParams : JVal
  jsonOps : List FileOp

/-- The NaN-substitution step of `save_sprite`:
`if np.isnan(np.sum(data)): data = np.nan_to_num(data)`. -/
def substData (img : Img) : Img :=
  if npIsnan (npSum (voxels img)) then
    { img with data := fun x y z => npNanToNum (img.data x y z) }
  else img

/-- Shallow embedding of `save_sprite(img, ..., vmax, vmin, cmap, threshold,
n_colors, format, resample, interpolation)`.  `rs` stands for the external
`_resample_to_self` resampling (nilearn `resample_img`), applied only when
`resample` is true.  The JSON branch models `output_json` being a path
string: the source runs `f = open(output_json,'w'); f.write(...); f.close`
— the final `f.close` is an attribute access, not a call, so no close
operation is performed on the handle. -/
def saveSprite (rs : Img → Img) (resample : Bool) (img0 : Img)
    (vmax0 vmin0 : Option F) (th0 : ThreshArg) : SpriteOut :=
  let img := if resample then rs img0 else img0
  -- data = _safe_get_data(img); if np.isnan(np.sum(data)): data = np.nan_to_num(data)
  let img1 := substData img
  let dataF := voxels img1
  -- if threshold == 'auto': threshold = fast_abs_percentile(data) - 1e-5
  -- threshold = float(threshold) if threshold is not None else None
  let th1 : Option ℚ :=
    match th0 with
    | ThreshArg.noThresh => Option.none
    | ThreshArg.auto => Option.some (fastAbsPercentile (dataF.map toQ) - epsTh)
    | ThreshArg.num t => Option.some t
  -- if vmax is not None and np.isnan(vmax): vmax = None; show_nan_msg = True
  let vmaxW : Option F × Bool :=
    match vmax0 with
    | Option.some v => if npIsnan v then (Option.none, true) else (Option.some v, false)
    | Option.none => (Option.none, false)
  let vminW : Option F × Bool :=
    match vmin0 with
    | Option.some v => if npIsnan v then (Option.none, true) else (Option.some v, false)
    | Option.none => (Option.none, false)
  let warned := vmaxW.2 || vminW.2
  -- if vmax is None: vmax = np.nanmax(data); if vmin is None: vmin = np.nanmin(data)
  let vmax1 := match vmaxW.1 with
    | Option.some v => v
    | Option.none => nanmaxF dataF
  let vmin1 := match vminW.1 with
    | Option.some v => v
    | Option.none => nanminF dataF
  -- sprite = _data2sprite(data)
  let spr := data2sprite img1.nx img1.ny img1.nz fun x y z => toQ (img1.data x y z)
  let msk := fun i j => maskOf th1 (spr i j)
  -- params = {'nbSlice': {'X': ..., 'Y': ..., 'Z': ...}, 'min': ..., 'max': ..., 'affine': ...}
  let params := JVal.jobj
    [("nbSlice", JVal.jobj
        [("X", JVal.jint img1.nx), ("Y", JVal.jint img1.ny), ("Z", JVal.jint img1.nz)]),
     ("min", JVal.jnum vmin1),
     ("max", JVal.jnum vmax1),
     ("affine", affineJson img1.affine)]
  -- f = open(output_json, 'w'); f.write(json.dumps(params)); f.close   (close never called)
  let ops := [FileOp.openW, FileOp.write params]
  ⟨spr, msk, th1, vmin1, vmax1, warned, dataF, (img1.nx, img1.ny, img1.nz), params, ops⟩

/-! ## `view_stat_map` -/

/-- The `bg_img` argument of `view_stat_map`: the `'MNI152'` default, a
user-supplied image, `None`, or `False`. -/
inductive BgArg where
  | mni
  | image (i : Img)
  | noneBg
  | falseBg

/-- The tuple returned by nilearn's `_load_anat`:
`(bg_img, black_bg, bg_min, bg_max)`. -/
structure Anat where
  img : Img
  blackBg : Bool
  bgMin : ℚ
  bgMax : ℚ

/-- `image.new_img_like(stat_map_img, np.zeros(shape), affine)`: a zero
volume on the same grid. -/
def zeroLike (i : Img) : Img :=
  ⟨i.nx, i.ny, i.nz, fun _ _ _ => F.num 0, i.affine⟩

/-- Modelled from the spec: nilearn's `image.resample_to_img` (not part of
this repository) resamples a source image "onto the background's exact grid
(same shape+affine) using the chosen interpolation"; the interpolated voxel
data `d` is supplied by the caller as an abstract function. -/
def resampleToImg (tgt : Img) (d : ℕ → ℕ → ℕ → F) : Img :=
  ⟨tgt.nx, tgt.ny, tgt.nz, d, tgt.affine⟩

/-- The volume-resolution part of `view_stat_map`: resolves the background
argument, loads and resamples the background, and resamples the stat map,
returning the final `(bg_img, stat_map_img)` pair.  `rs` stands for the
external `_resample_to_self`, `loadAnat` for nilearn's `_load_anat`, and
`itp` for the interpolated voxel data of `image.resample_to_img`. -/
def viewStatMapImgs (rs : Img → Img) (loadAnat : Img → Anat)
    (itp : Img → Img → ℕ → ℕ → ℕ → F) (mni : Img) (stat : Img) (bg : BgArg) :
    Img × Img :=
  -- if bg_img == 'MNI152': bg_img = _MNI152Template()
  let bgResolved : Option Img :=
    match bg with
    | BgArg.mni => Option.some mni
    | BgArg.image i => Option.some i
    | BgArg.noneBg => Option.none
    | BgArg.falseBg => Option.none
  match bgResolved with
  | Option.some b =>
      -- bg_img, black_bg, bg_min, bg_max = _load_anat(...)
      let an := loadAnat b
      -- bg_img = _resample_to_self(bg_img, interpolation)
      let bgR := rs an.img
      -- stat_map_img = image.resample_to_img(stat_map_img, bg_img, interpolation)
      (bgR, resampleToImg bgR (itp stat bgR))
  | Option.none =>
      -- stat_map_img = _resample_to_self(stat_map_img, interpolation)
      let statR := rs stat
      -- bg_img = image.new_img_like(stat_map_img, np.zeros(...), affine)
      (zeroLike statR, statR)

/-! ## The `Point3D` trait (`traits.py`) -/

/-- A Python value as far as `Point3D.validate` is concerned. -/
inductive PyV where
  | pint (n : ℤ)
  | pbool (b : Bool)
  | pstr (s : String)
deriving DecidableEq

/-- Python `==`: `True == 1` and `False == 0`, strings only equal strings. -/
def pyEq : PyV → PyV → Bool
  | PyV.pint a, PyV.pint b => a == b
  | PyV.pbool a, PyV.pbool b => a == b
  | PyV.pint a, PyV.pbool b => a == (cond b 1 0 : ℤ)
  | PyV.pbool a, PyV.pint b => (cond a 1 0 : ℤ) == b
  | PyV.pstr a, PyV.pstr b => a == b
  | _, _ => false

/-- Python `k in d` for a dict: membership among the keys under `==`. -/
def dictContains (d : List (PyV × PyV)) (k : PyV) : Bool :=
  d.any fun kv => pyEq k kv.1

/-- Python `d[k]` (the default is unreachable in `validate`, where the first
conjunct guarantees the key is present before `value[a]` is evaluated). -/
def dictGet (d : List (PyV × PyV)) (k : PyV) : PyV :=
  match d.find? fun kv => pyEq k kv.1 with
  | Option.some kv => kv.2
  | Option.none => PyV.pint 0

/-- Python `isinstance(v, int)` (`bool` is a subclass of `int`). -/
def isinstInt : PyV → Bool
  | PyV.pint _ => true
  | PyV.pbool _ => true
  | _ => false

/-- `Point3D.validate` on a dict argument (the `isinstance(value, dict)`
test already passed).  The source tests
`all(a in value for a in ['x','y','z']) and
 all(isinstance(value[a], int) in value for a in ['x','y','z'])`;
note that the second `all` asks whether the *boolean* result of
`isinstance` is a key of the dict. -/
def point3dValidate (value : List (PyV × PyV)) : Except Unit (List (PyV × PyV)) :=
  if (["x", "y", "z"].all fun a => dictContains value (PyV.pstr a)) &&
     (["x", "y", "z"].all fun a =>
        dictContains value (PyV.pbool (isinstInt (dictGet value (PyV.pstr a))))) then
    Except.ok value
  else
    Except.error ()

/-- The trait's `default_value = {'x': 0, 'y': 0, 'z': 0}`. -/
def point3dDefault : List (PyV × PyV) :=
  [(PyV.pstr "x", PyV.pint 0), (PyV.pstr "y", PyV.pint 0), (PyV.pstr "z", PyV.pint 0)]

/-! ## Concrete inputs used by witnesses and counterexamples -/

/-- A 1x2x2 volume distinguishing the two slice axes:
`data[0][y][z]` is `1,2,3,4` for `(y,z) = (0,0),(0,1),(1,0),(1,1)`. -/
def dC2 : ℕ → ℕ → ℕ → ℚ := fun _ y z =>
  if y = 0 then (if z = 0 then 1 else 2) else (if z = 0 then 3 else 4)

/-- A constant 2x3x2 volume for the C2 witness. -/
def dW2 : ℕ → ℕ → ℕ → ℚ := fun x y z => (x : ℚ) * 100 + (y : ℚ) * 10 + (z : ℚ)

/-- A 1x1x1 volume holding the single value 1. -/
def imgC1 : Img := ⟨1, 1, 1, fun _ _ _ => F.num 1, fun _ _ => 0⟩

/-- A 1x1x2 volume holding a NaN and the value 5. -/
def imgC3 : Img := ⟨1, 1, 2, (fun _ _ z => if z = 0 then F.nan else F.num 5), fun _ _ => 0⟩

/-- A 1x1x1 volume holding the single value 1. -/
def imgC6 : Img := ⟨1, 1, 1, fun _ _ _ => F.num 1, fun _ _ => 0⟩

/-- A 2x2x2 volume for the C9 witness. -/
def imgC9 : Img := ⟨2, 2, 2, fun _ _ _ => F.num 3, fun _ _ => 1⟩

/-- A 3x4x5 background volume for the C9 witness. -/
def imgC9bg : Img := ⟨3, 4, 5, fun _ _ _ => F.num 2, fun _ _ => 2⟩

/-! ## Lemmas and claim theorems -/

lemma npNanToNum_not_nan (x : F) : npIsnan (npNanToNum x) = false := by
  cases x <;> rfl

lemma npSum_nan_of_mem {l : List F} (h : F.nan ∈ l) : npSum l = F.nan := by
  have key : ∀ (l : List F) (a : F), F.nan ∈ l → l.foldl F.add a = F.nan := by
    intro l
    induction l with
    | nil => intro a h; cases h
    | cons x xs ih =>
        intro a h
        rcases List.mem_cons.mp h with h1 | h2
        · subst h1
          have : ∀ (xs : List F), xs.foldl F.add F.nan = F.nan := by
            intro xs
            induction xs with
            | nil => rfl
            | cons y ys ih2 =>
                simpa [List.foldl, F.add] using ih2
          simpa [List.foldl, F.add] using this xs
        · exact ih _ h2
  exact key l (F.num 0) h

lemma npSum_num_of_no_nan {l : List F} (h : ∀ x ∈ l, npIsnan x = false) :
    ∃ q, npSum l = F.num q := by
  have key : ∀ (l : List F) (a : ℚ), (∀ x ∈ l, npIsnan x = false) →
      ∃ q, l.foldl F.add (F.num a) = F.num q := by
    intro l
    induction l with
    | nil => intro a _; exact ⟨a, rfl⟩
    | cons x xs ih =>
        intro a h
        have hx := h x (List.mem_cons_self x xs)
        cases x with
        | nan => simp [npIsnan] at hx
        | num q =>
            have := ih (a + q) (fun y hy => h y (List.mem_cons_of_mem _ hy))
            simpa [List.foldl, F.add] using this
  exact key l 0 h

/-- If the data holds no NaN and is nonempty, `np.nanmin` returns a finite value. -/
lemma nanminF_not_nan {l : List F} (hne : l ≠ []) (h : ∀ x ∈ l, npIsnan x = false) :
    npIsnan (nanminF l) = false := by
  cases l with
  | nil => exact absurd rfl hne
  | cons x xs =>
      have hx := h x (List.mem_cons_self x xs)
      cases x with
      | nan => simp [npIsnan] at hx
      | num q => simp [nanminF, toQopt, npIsnan]

/-- If the data holds no NaN and is nonempty, `np.nanmax` returns a finite value. -/
lemma nanmaxF_not_nan {l : List F} (hne : l ≠ []) (h : ∀ x ∈ l, npIsnan x = false) :
    npIsnan (nanmaxF l) = false := by
  cases l with
  | nil => exact absurd rfl hne
  | cons x xs =>
      have hx := h x (List.mem_cons_self x xs)
      cases x with
      | nan => simp [npIsnan] at hx
      | num q => simp [nanmaxF, toQopt, npIsnan]

lemma spriteLoop_succ (ny nz k : ℕ) (d : ℕ → ℕ → ℕ → ℚ) (n : ℕ) :
    spriteLoop ny nz k d (n + 1) = writeTile ny nz k d (spriteLoop ny nz k d n) n := by
  unfold spriteLoop
  rw [List.range_succ, List.foldl_append]
  rfl

lemma tileCond_row {ny nz k xx i j : ℕ} (h : tileCond ny nz k xx i j) :
    i / nz = indrow k xx := by
  obtain ⟨h1, h2, _, _⟩ := h
  exact Nat.div_eq_of_lt_le h1 h2

lemma tileCond_col {ny nz k xx i j : ℕ} (h : tileCond ny nz k xx i j) :
    j / ny = indcol k xx := by
  obtain ⟨_, _, h3, h4⟩ := h
  exact Nat.div_eq_of_lt_le h3 h4

/-- Two loop iterations whose written regions overlap are the same iteration. -/
lemma tileCond_inj {ny nz k xx xx' i j : ℕ}
    (h : tileCond ny nz k xx i j) (h' : tileCond ny nz k xx' i j) : xx = xx' := by
  have hr : indrow k xx = indrow k xx' := by
    rw [← tileCond_row h, ← tileCond_row h']
  have hc : indcol k xx = indcol k xx' := by
    rw [← tileCond_col h, ← tileCond_col h']
  have e1 : k * indrow k xx + indcol k xx = xx := Nat.div_add_mod xx k
  have e2 : k * indrow k xx' + indcol k xx' = xx' := Nat.div_add_mod xx' k
  rw [← e1, ← e2, hr, hc]

/-- The write for slice `xx` hits exactly the claimed tile and stores
`data[xx, c, nz - 1 - r]` at in-tile position `(r, c)`. -/
lemma writeTile_hit {ny nz k : ℕ} (d : ℕ → ℕ → ℕ → ℚ) (s : ℕ → ℕ → ℚ)
    {xx r c : ℕ} (hr : r < nz) (hc : c < ny) :
    writeTile ny nz k d s xx (indrow k xx * nz + r) (indcol k xx * ny + c) =
      d xx c (nz - 1 - r) := by
  have hcond : tileCond ny nz k xx (indrow k xx * nz + r) (indcol k xx * ny + c) := by
    refine ⟨Nat.le_add_right _ _, ?_, Nat.le_add_right _ _, ?_⟩
    · have : indrow k xx * nz + r < indrow k xx * nz + nz := by omega
      simpa [Nat.succ_mul, Nat.add_mul, Nat.one_mul] using this
    · have : indcol k xx * ny + c < indcol k xx * ny + ny := by omega
      simpa [Nat.succ_mul, Nat.add_mul, Nat.one_mul] using this
  simp [writeTile, hcond]

/-- Value of the sprite inside the tile of a slice `xx` already written:
later iterations never overwrite it. -/
lemma spriteLoop_get {ny nz k : ℕ} (d : ℕ → ℕ → ℕ → ℚ) :
    ∀ {n xx r c : ℕ}, xx < n → r < nz → c < ny →
    spriteLoop ny nz k d n (indrow k xx * nz + r) (indcol k xx * ny + c) =
      d xx c (nz - 1 - r) := by
  intro n
  induction n with
  | zero => intro xx r c h; omega
  | succ m ih =>
      intro xx r c hxx hr hc
      rw [spriteLoop_succ]
      by_cases hx : xx = m
      · subst hx
        exact writeTile_hit d _ hr hc
      · have hxm : xx < m := by omega
        have hcur : tileCond ny nz k xx (indrow k xx * nz + r) (indcol k xx * ny + c) := by
          refine ⟨Nat.le_add_right _ _, ?_, Nat.le_add_right _ _, ?_⟩
          · have : indrow k xx * nz + r < indrow k xx * nz + nz := by omega
            simpa [Nat.succ_mul, Nat.add_mul, Nat.one_mul] using this
          · have : indcol k xx * ny + c < indcol k xx * ny + ny := by omega
            simpa [Nat.succ_mul, Nat.add_mul, Nat.one_mul] using this
        have hnot : ¬ tileCond ny nz k m (indrow k xx * nz + r) (indcol k xx * ny + c) := by
          intro hcond
          exact hx (tileCond_inj hcur hcond)
        simp [writeTile, hnot]
        exact ih hxm hr hc

/-- Positions touched by no iteration of the loop stay zero. -/
lemma spriteLoop_zero {ny nz k : ℕ} (d : ℕ → ℕ → ℕ → ℚ) :
    ∀ {n i j : ℕ}, (∀ xx, xx < n → ¬ tileCond ny nz k xx i j) →
    spriteLoop ny nz k d n i j = 0 := by
  intro n
  induction n with
  | zero => intro i j _; rfl
  | succ m ih =>
      intro i j h
      rw [spriteLoop_succ]
      have hm : ¬ tileCond ny nz k m i j := h m (Nat.lt_succ_self m)
      simp [writeTile, hm]
      exact ih fun xx hxx => h xx (Nat.lt_succ_of_lt hxx)

/-- `nrows nx` is the ceiling of the square root: `(nrows-1)² < nx ≤ nrows²`. -/
lemma nrows_spec {nx : ℕ} (h : 1 ≤ nx) :
    (nrows nx - 1) * (nrows nx - 1) < nx ∧ nx ≤ nrows nx * nrows nx := by
  have hle : Nat.sqrt nx * Nat.sqrt nx ≤ nx := Nat.sqrt_le nx
  have hlt : nx < (Nat.sqrt nx + 1) * (Nat.sqrt nx + 1) := Nat.lt_succ_sqrt nx
  have hs1 : 1 ≤ Nat.sqrt nx := by
    rcases Nat.eq_zero_or_pos (Nat.sqrt nx) with h0 | h1
    · exfalso
      have := Nat.sqrt_eq_zero.mp h0
      omega
    · exact h1
  obtain ⟨t, ht⟩ : ∃ t, Nat.sqrt nx = t + 1 := ⟨Nat.sqrt nx - 1, by omega⟩
  unfold nrows
  by_cases he : Nat.sqrt nx * Nat.sqrt nx = nx
  · rw [if_pos he]
    rw [ht] at he ⊢
    constructor
    · simp only [Nat.add_sub_cancel]
      nlinarith
    · omega
  · rw [if_neg he]
    constructor
    · simpa using Nat.lt_of_le_of_ne hle he
    · omega

lemma nrows_pos {nx : ℕ} (h : 1 ≤ nx) : 1 ≤ nrows nx := by
  have := (nrows_spec h).2
  nlinarith

/-- `ncols nx` is the ceiling of `nx / nrows nx`:
`nrows*(ncols-1) < nx ≤ nrows*ncols`. -/
lemma ncols_spec {nx : ℕ} (h : 1 ≤ nx) :
    nrows nx * (ncols nx - 1) < nx ∧ nx ≤ nrows nx * ncols nx := by
  have hr := nrows_pos h
  unfold ncols
  set r := nrows nx with hrdef
  set q := (nx + r - 1) / r with hqdef
  have hdm : r * q + (nx + r - 1) % r = nx + r - 1 := Nat.div_add_mod (nx + r - 1) r
  have hmod : (nx + r - 1) % r < r := Nat.mod_lt _ (by omega)
  have hq1 : 1 ≤ q := by
    rw [hqdef, Nat.one_le_div_iff (show 0 < r by omega)]
    omega
  have hlink : r * (q - 1) + r * 1 = r * q := by
    rw [← Nat.mul_add]
    congr 1
    omega
  constructor
  · omega
  · omega

lemma ncols_pos {nx : ℕ} (h : 1 ≤ nx) : 1 ≤ ncols nx := by
  have := (ncols_spec h).2
  nlinarith

/-- `Nat.sqrt` at a concrete value, through its characterisation
(`Nat.sqrt` is defined by well-founded recursion and does not kernel-reduce). -/
lemma sqrt_eq_of {n k : ℕ} (h1 : k * k ≤ n) (h2 : n < (k + 1) * (k + 1)) :
    Nat.sqrt n = k := by
  have ha : Nat.sqrt n * Nat.sqrt n ≤ n := Nat.sqrt_le n
  have hb : n < (Nat.sqrt n + 1) * (Nat.sqrt n + 1) := Nat.lt_succ_sqrt n
  rcases Nat.lt_trichotomy (Nat.sqrt n) k with hlt | heq | hgt
  · exfalso
    have hs : Nat.sqrt n + 1 ≤ k := hlt
    nlinarith
  · exact heq
  · exfalso
    have hs : k + 1 ≤ Nat.sqrt n := hgt
    nlinarith

lemma sqrt_one : Nat.sqrt 1 = 1 := sqrt_eq_of (by norm_num) (by norm_num)

lemma sqrt_two : Nat.sqrt 2 = 1 := sqrt_eq_of (by norm_num) (by norm_num)

lemma sqrt_three : Nat.sqrt 3 = 1 := sqrt_eq_of (by norm_num) (by norm_num)

lemma nrows_one : nrows 1 = 1 := by
  unfold nrows
  rw [sqrt_one]
  decide

lemma ncols_one : ncols 1 = 1 := by
  unfold ncols
  rw [nrows_one]

lemma nrows_two : nrows 2 = 2 := by
  unfold nrows
  rw [sqrt_two]
  decide

lemma ncols_two : ncols 2 = 1 := by
  unfold ncols
  rw [nrows_two]

lemma nrows_three : nrows 3 = 2 := by
  unfold nrows
  rw [sqrt_three]
  decide

lemma ncols_three : ncols 3 = 2 := by
  unfold ncols
  rw [nrows_three]

lemma mem_voxels {img : Img} {v : F} :
    v ∈ voxels img ↔ ∃ a b c, a < img.nx ∧ b < img.ny ∧ c < img.nz ∧
      img.data a b c = v := by
  simp only [voxels, List.mem_flatMap, List.mem_map, List.mem_range]
  constructor
  · rintro ⟨a, ha, b, hb, c, hc, h⟩
    exact ⟨a, b, c, ha, hb, hc, h⟩
  · rintro ⟨a, b, c, ha, hb, hc, h⟩
    exact ⟨a, ha, b, hb, c, hc, h⟩

lemma voxels_map (img : Img) (g : F → F) :
    voxels { img with data := fun x y z => g (img.data x y z) } =
      (voxels img).map g := by
  simp only [voxels, List.map_flatMap, List.map_map]
  rfl

/-- The percentile value is the absolute value of an actual data element. -/
lemma fastAbsPercentile_mem {l : List ℚ} (h : l ≠ []) :
    ∃ q ∈ l, |q| = fastAbsPercentile l := by
  have hlen : 0 < l.length := List.length_pos.mpr h
  have hperm := List.perm_insertionSort (· ≤ ·) (l.map fun q => |q|)
  have hidx : l.length * 80 / 100 <
      (List.insertionSort (· ≤ ·) (l.map fun q => |q|)).length := by
    rw [hperm.length_eq, List.length_map]
    rw [Nat.div_lt_iff_lt_mul (by norm_num)]
    omega
  have hget : fastAbsPercentile l ∈
      List.insertionSort (· ≤ ·) (l.map fun q => |q|) := by
    unfold fastAbsPercentile
    rw [List.getD_eq_getElem _ _ hidx]
    exact List.getElem_mem hidx
  have hmem : fastAbsPercentile l ∈ l.map fun q => |q| := hperm.mem_iff.mp hget
  obtain ⟨q, hq, he⟩ := List.mem_map.mp hmem
  exact ⟨q, hq, he⟩

/-! ## Claim theorems -/

/-- C2 (amended): for every 3D volume of shape `(nx,ny,nz)` and slice index
`xx < nx`, the tiler writes the `xx`-th axis-0 slice into the tile at grid
position `(indrow[xx], indcol[xx])` in row-major order, with the slice's
second axis (the `nz`-axis of the slice) reversed and the two remaining axes
then transposed, so the stored tile is the slice's `(z,y)` plane with `z`
mirrored: `sprite[indrow[xx]*nz + r, indcol[xx]*ny + c] = data[xx, c, nz-1-r]`
for all in-tile coordinates `(r, c)`. -/
theorem C2_tiler_tile_content {nx ny nz : ℕ} (d : ℕ → ℕ → ℕ → ℚ)
    {xx r c : ℕ} (hxx : xx < nx) (hr : r < nz) (hc : c < ny) :
    data2sprite nx ny nz d
        (indrow (ncols nx) xx * nz + r) (indcol (ncols nx) xx * ny + c) =
      d xx c (nz - 1 - r) := by
  unfold data2sprite
  exact spriteLoop_get d hxx hr hc

theorem C2_tiler_tile_content_witness :
    data2sprite 2 3 2 dW2 (indrow (ncols 2) 1 * 2 + 1) (indcol (ncols 2) 1 * 3 + 2) =
      dW2 1 2 (2 - 1 - 1) :=
  C2_tiler_tile_content dW2 (by decide) (by decide) (by decide)

/-- C2 (counterexample): on the 1x2x2 volume `dC2`, the pixel at in-tile
position `(0,0)` is `data[0, 0, 1] = 2`, not the value `data[0, ny-1, 0] = 3`
predicted by the claim's "`ny`-axis reversed, `y` mirrored" reading. -/
theorem C2_tiler_counterexample :
    ¬ (data2sprite 1 2 2 dC2
          (indrow (ncols 1) 0 * 2 + 0) (indcol (ncols 1) 0 * 2 + 0) =
        dC2 0 (2 - 1 - 0) 0) := by
  unfold data2sprite
  rw [ncols_one]
  decide

/-- C5: for every volume with `nx ≥ 1`, the tiler's output grid satisfies
`nrows = ceil(sqrt(nx))` (characterised by `(nrows-1)² < nx ≤ nrows²`),
`ncols = ceil(nx/nrows)` (characterised by `nrows*(ncols-1) < nx ≤ nrows*ncols`),
every grid cell beyond the first `nx` tiles in row-major order holds only
zeros, and nothing is written outside the `(nrows*nz) × (ncols*ny)` rectangle. -/
theorem C5_tiler_shape_and_padding (nx ny nz : ℕ) (d : ℕ → ℕ → ℕ → ℚ)
    (h : 1 ≤ nx) :
    ((nrows nx - 1) * (nrows nx - 1) < nx ∧ nx ≤ nrows nx * nrows nx) ∧
    (nrows nx * (ncols nx - 1) < nx ∧ nx ≤ nrows nx * ncols nx) ∧
    (∀ i j, i < nrows nx * nz → j < ncols nx * ny →
      nx ≤ i / nz * ncols nx + j / ny → data2sprite nx ny nz d i j = 0) ∧
    (∀ i j, nrows nx * nz ≤ i ∨ ncols nx * ny ≤ j →
      data2sprite nx ny nz d i j = 0) := by
  have hnr := nrows_spec h
  have hnc := ncols_spec h
  have hkpos : 0 < ncols nx := ncols_pos h
  refine ⟨hnr, hnc, ?_, ?_⟩
  · intro i j _ _ hbeyond
    unfold data2sprite
    refine spriteLoop_zero d ?_
    intro xx hxx hcond
    have hrow := tileCond_row hcond
    have hcol := tileCond_col hcond
    have e : ncols nx * indrow (ncols nx) xx + indcol (ncols nx) xx = xx := by
      unfold indrow indcol
      exact Nat.div_add_mod xx (ncols nx)
    rw [← hrow, ← hcol] at e
    have hprod : i / nz * ncols nx = ncols nx * (i / nz) := Nat.mul_comm _ _
    omega
  · intro i j hout
    unfold data2sprite
    refine spriteLoop_zero d ?_
    intro xx hxx hcond
    obtain ⟨h1, h2, h3, h4⟩ := hcond
    have h2' : i < indrow (ncols nx) xx * nz + nz := by
      have hexp : (indrow (ncols nx) xx + 1) * nz = indrow (ncols nx) xx * nz + nz := by
        ring
      omega
    have h4' : j < indcol (ncols nx) xx * ny + ny := by
      have hexp : (indcol (ncols nx) xx + 1) * ny = indcol (ncols nx) xx * ny + ny := by
        ring
      omega
    rcases hout with hi | hj
    · -- i ≥ nrows*nz would force the written row index to reach nrows
      have hrow : nrows nx ≤ indrow (ncols nx) xx := by
        by_contra hcon
        push_neg at hcon
        have hup : indrow (ncols nx) xx + 1 ≤ nrows nx := hcon
        have hmul : (indrow (ncols nx) xx + 1) * nz ≤ nrows nx * nz :=
          mul_le_mul_right' hup nz
        have hexp : (indrow (ncols nx) xx + 1) * nz = indrow (ncols nx) xx * nz + nz := by
          ring
        omega
      have hxge : nrows nx * ncols nx ≤ xx := by
        have hdd : nrows nx ≤ xx / ncols nx := hrow
        calc nrows nx * ncols nx ≤ xx / ncols nx * ncols nx :=
              mul_le_mul_right' hdd (ncols nx)
          _ ≤ xx := Nat.div_mul_le_self xx (ncols nx)
      omega
    · -- j ≥ ncols*ny is impossible: the written column index is < ncols
      have hcol : indcol (ncols nx) xx < ncols nx := Nat.mod_lt _ hkpos
      have hup : indcol (ncols nx) xx + 1 ≤ ncols nx := hcol
      have hmul : (indcol (ncols nx) xx + 1) * ny ≤ ncols nx * ny :=
        mul_le_mul_right' hup ny
      have hexp : (indcol (ncols nx) xx + 1) * ny = indcol (ncols nx) xx * ny + ny := by
        ring
      omega

theorem C5_tiler_shape_and_padding_witness :
    ((nrows 3 - 1) * (nrows 3 - 1) < 3 ∧ 3 ≤ nrows 3 * nrows 3) ∧
    (nrows 3 * (ncols 3 - 1) < 3 ∧ 3 ≤ nrows 3 * ncols 3) ∧
    data2sprite 3 1 1 dW2 1 1 = 0 := by
  obtain ⟨ha, hb, hc, _⟩ := C5_tiler_shape_and_padding 3 1 1 dW2 (by norm_num)
  refine ⟨ha, hb, hc 1 1 ?_ ?_ ?_⟩
  · rw [nrows_three]
    norm_num
  · rw [ncols_three]
    norm_num
  · rw [ncols_three]

lemma substData_of_not_nan {img : Img} (h : npIsnan (npSum (voxels img)) = false) :
    substData img = img := by
  unfold substData
  simp [h]

/-- C1 (amended): in `save_sprite`, for a resolved numeric threshold `t`:
if `t` is exactly zero, exactly the sprite pixels equal to zero are masked;
otherwise exactly the sprite pixels whose value lies in the **closed**
interval between `-t` and `+t` (bounds sorted, so `|value| ≤ |t|`) are
masked — in particular pixels with value exactly `-t` or `+t` **are**
masked; all other pixels retain normal mapping. -/
theorem C1_threshold_masking (rs : Img → Img) (resample : Bool) (img0 : Img)
    (vmax0 vmin0 : Option F) (t : ℚ) (i j : ℕ) :
    (t = 0 →
      ((saveSprite rs resample img0 vmax0 vmin0 (ThreshArg.num t)).mask i j = true ↔
       (saveSprite rs resample img0 vmax0 vmin0 (ThreshArg.num t)).sprite i j = 0)) ∧
    (t ≠ 0 →
      ((saveSprite rs resample img0 vmax0 vmin0 (ThreshArg.num t)).mask i j = true ↔
       (min (-t) t ≤ (saveSprite rs resample img0 vmax0 vmin0 (ThreshArg.num t)).sprite i j ∧
        (saveSprite rs resample img0 vmax0 vmin0 (ThreshArg.num t)).sprite i j ≤
          max (-t) t))) := by
  have hmask : (saveSprite rs resample img0 vmax0 vmin0 (ThreshArg.num t)).mask i j =
      maskOf (Option.some t)
        ((saveSprite rs resample img0 vmax0 vmin0 (ThreshArg.num t)).sprite i j) := rfl
  constructor
  · intro h0
    rw [hmask, h0]
    simp [maskOf]
  · intro hne
    rw [hmask]
    simp [maskOf, maskInside, hne]

theorem C1_threshold_masking_witness :
    (saveSprite (fun i => i) false imgC1 Option.none Option.none (ThreshArg.num 1)).mask 0 0
        = true ↔
      (min (-1 : ℚ) 1 ≤
          (saveSprite (fun i => i) false imgC1 Option.none Option.none (ThreshArg.num 1)).sprite 0 0 ∧
       (saveSprite (fun i => i) false imgC1 Option.none Option.none (ThreshArg.num 1)).sprite 0 0
          ≤ max (-1 : ℚ) 1) :=
  (C1_threshold_masking (fun i => i) false imgC1 Option.none Option.none 1 0 0).2
    (by norm_num)

/-- C1 (counterexample): on a 1x1x1 volume with value 1 and threshold 1,
the single sprite pixel has value exactly `+threshold`; the code masks it
(`masked_inside` is inclusive), but the claim's open interval `(-1, 1)`
excludes it. -/
theorem C1_masking_counterexample :
    ¬ (((saveSprite (fun i => i) false imgC1 Option.none Option.none
          (ThreshArg.num 1)).mask 0 0 = true) ↔
       ((-1 : ℚ) <
          (saveSprite (fun i => i) false imgC1 Option.none Option.none
            (ThreshArg.num 1)).sprite 0 0 ∧
        (saveSprite (fun i => i) false imgC1 Option.none Option.none
          (ThreshArg.num 1)).sprite 0 0 < 1)) := by
  have hsub : substData imgC1 = imgC1 := substData_of_not_nan (by decide)
  have hspr : (saveSprite (fun i => i) false imgC1 Option.none Option.none
      (ThreshArg.num 1)).sprite 0 0 = 1 := by
    show data2sprite (substData (if false then (fun i : Img => i) imgC1 else imgC1)).nx
        (substData (if false then (fun i : Img => i) imgC1 else imgC1)).ny
        (substData (if false then (fun i : Img => i) imgC1 else imgC1)).nz
        (fun x y z =>
          toQ ((substData (if false then (fun i : Img => i) imgC1 else imgC1)).data x y z))
        0 0 = 1
    rw [if_neg (by simp)] at *
    rw [hsub]
    show data2sprite 1 1 1 _ 0 0 = 1
    unfold data2sprite
    rw [ncols_one]
    decide
  have hmask : (saveSprite (fun i => i) false imgC1 Option.none Option.none
      (ThreshArg.num 1)).mask 0 0 = true := by
    have heq : (saveSprite (fun i => i) false imgC1 Option.none Option.none
        (ThreshArg.num 1)).mask 0 0 =
        maskOf (Option.some 1)
          ((saveSprite (fun i => i) false imgC1 Option.none Option.none
            (ThreshArg.num 1)).sprite 0 0) := rfl
    rw [heq, hspr]
    decide
  rw [hmask, hspr]
  norm_num

lemma voxels_substData {img : Img} (h : npIsnan (npSum (voxels img)) = true) :
    voxels (substData img) = (voxels img).map npNanToNum := by
  unfold substData
  rw [h]
  simpa using voxels_map img npNanToNum

/-- C3: in `save_sprite`, if the whole-volume sum of the data is non-finite
(NaN), every NaN in the data is replaced with zero, and this substitution
happens before `vmin`/`vmax` are computed from the data when they are not
user-supplied: the computed `vmin`/`vmax` are the nan-safe extrema of the
substituted data and are never NaN. -/
theorem C3_nan_substitution (rs : Img → Img) (img0 : Img) (vmax0 vmin0 : Option F)
    (th0 : ThreshArg) (hnan : npIsnan (npSum (voxels img0)) = true)
    (hne : voxels img0 ≠ []) :
    (saveSprite rs false img0 vmax0 vmin0 th0).dataF = (voxels img0).map npNanToNum ∧
    (∀ x ∈ (saveSprite rs false img0 vmax0 vmin0 th0).dataF, npIsnan x = false) ∧
    (vmin0 = Option.none →
      (saveSprite rs false img0 vmax0 vmin0 th0).vmin =
        nanminF ((voxels img0).map npNanToNum) ∧
      npIsnan (saveSprite rs false img0 vmax0 vmin0 th0).vmin = false) ∧
    (vmax0 = Option.none →
      (saveSprite rs false img0 vmax0 vmin0 th0).vmax =
        nanmaxF ((voxels img0).map npNanToNum) ∧
      npIsnan (saveSprite rs false img0 vmax0 vmin0 th0).vmax = false) := by
  have hD : (saveSprite rs false img0 vmax0 vmin0 th0).dataF = voxels (substData img0) :=
    rfl
  have hS : voxels (substData img0) = (voxels img0).map npNanToNum := voxels_substData hnan
  have hall : ∀ x ∈ (voxels img0).map npNanToNum, npIsnan x = false := by
    intro x hx
    obtain ⟨y, _, rfl⟩ := List.mem_map.mp hx
    exact npNanToNum_not_nan y
  have hne' : (voxels img0).map npNanToNum ≠ [] := by
    simpa using hne
  refine ⟨hD.trans hS, ?_, ?_, ?_⟩
  · rw [hD, hS]
    exact hall
  · intro hv
    subst hv
    have hv1 : (saveSprite rs false img0 vmax0 Option.none th0).vmin =
        nanminF (voxels (substData img0)) := rfl
    rw [hv1, hS]
    exact ⟨rfl, nanminF_not_nan hne' hall⟩
  · intro hv
    subst hv
    have hv1 : (saveSprite rs false img0 Option.none vmin0 th0).vmax =
        nanmaxF (voxels (substData img0)) := rfl
    rw [hv1, hS]
    exact ⟨rfl, nanmaxF_not_nan hne' hall⟩

theorem C3_nan_substitution_witness :
    (saveSprite (fun i => i) false imgC3 Option.none Option.none ThreshArg.noThresh).dataF =
      (voxels imgC3).map npNanToNum ∧
    ((saveSprite (fun i => i) false imgC3 Option.none Option.none ThreshArg.noThresh).vmin =
      nanminF ((voxels imgC3).map npNanToNum) ∧
     npIsnan (saveSprite (fun i => i) false imgC3 Option.none Option.none
       ThreshArg.noThresh).vmin = false) := by
  have h := C3_nan_substitution (fun i => i) imgC3 Option.none Option.none
    ThreshArg.noThresh (by decide) (by decide)
  exact ⟨h.1, h.2.2.1 rfl⟩

/-- C6: in `save_sprite`, `threshold='auto'` resolves to the robust high
percentile of the absolute values of the (already NaN-substituted) data
minus exactly `1e-5`; it is therefore strictly less than that percentile
value, and for a non-degenerate volume (nonempty, with percentile at least
`1e-5`) at least one sprite pixel survives the subsequent masking. -/
theorem C6_auto_threshold (rs : Img → Img) (img0 : Img) (vmax0 vmin0 : Option F) :
    (saveSprite rs false img0 vmax0 vmin0 ThreshArg.auto).threshold =
      Option.some (fastAbsPercentile
        (((saveSprite rs false img0 vmax0 vmin0 ThreshArg.auto).dataF).map toQ) - epsTh) ∧
    fastAbsPercentile
        (((saveSprite rs false img0 vmax0 vmin0 ThreshArg.auto).dataF).map toQ) - epsTh <
      fastAbsPercentile
        (((saveSprite rs false img0 vmax0 vmin0 ThreshArg.auto).dataF).map toQ) ∧
    ((saveSprite rs false img0 vmax0 vmin0 ThreshArg.auto).dataF ≠ [] →
     epsTh ≤ fastAbsPercentile
        (((saveSprite rs false img0 vmax0 vmin0 ThreshArg.auto).dataF).map toQ) →
     ∃ i j, (saveSprite rs false img0 vmax0 vmin0 ThreshArg.auto).mask i j = false) := by
  have heps : (0 : ℚ) < epsTh := by norm_num [epsTh]
  refine ⟨rfl, by linarith, ?_⟩
  intro hne hp
  have hlne : ((saveSprite rs false img0 vmax0 vmin0 ThreshArg.auto).dataF).map toQ ≠ [] := by
    simpa using hne
  obtain ⟨q, hq, habs⟩ := fastAbsPercentile_mem hlne
  obtain ⟨x, hx, rfl⟩ := List.mem_map.mp hq
  have hx' : x ∈ voxels (substData img0) := hx
  obtain ⟨a, b, c, ha, hb, hc, hd⟩ := mem_voxels.mp hx'
  refine ⟨indrow (ncols (substData img0).nx) a * (substData img0).nz +
      ((substData img0).nz - 1 - c),
    indcol (ncols (substData img0).nx) a * (substData img0).ny + b, ?_⟩
  have hspr : (saveSprite rs false img0 vmax0 vmin0 ThreshArg.auto).sprite
      (indrow (ncols (substData img0).nx) a * (substData img0).nz +
        ((substData img0).nz - 1 - c))
      (indcol (ncols (substData img0).nx) a * (substData img0).ny + b) =
      toQ ((substData img0).data a b
        ((substData img0).nz - 1 - ((substData img0).nz - 1 - c))) := by
    show spriteLoop (substData img0).ny (substData img0).nz (ncols (substData img0).nx)
        (fun x y z => toQ ((substData img0).data x y z)) (substData img0).nx
        (indrow (ncols (substData img0).nx) a * (substData img0).nz +
          ((substData img0).nz - 1 - c))
        (indcol (ncols (substData img0).nx) a * (substData img0).ny + b) = _
    exact spriteLoop_get _ ha (by omega) hb
  have hcc : (substData img0).nz - 1 - ((substData img0).nz - 1 - c) = c := by omega
  rw [hcc, hd] at hspr
  have hm : (saveSprite rs false img0 vmax0 vmin0 ThreshArg.auto).mask
      (indrow (ncols (substData img0).nx) a * (substData img0).nz +
        ((substData img0).nz - 1 - c))
      (indcol (ncols (substData img0).nx) a * (substData img0).ny + b) =
      maskOf (Option.some (fastAbsPercentile
        (((saveSprite rs false img0 vmax0 vmin0 ThreshArg.auto).dataF).map toQ) - epsTh))
        ((saveSprite rs false img0 vmax0 vmin0 ThreshArg.auto).sprite
          (indrow (ncols (substData img0).nx) a * (substData img0).nz +
            ((substData img0).nz - 1 - c))
          (indcol (ncols (substData img0).nx) a * (substData img0).ny + b)) := rfl
  rw [hm, hspr]
  set p := fastAbsPercentile
    (((saveSprite rs false img0 vmax0 vmin0 ThreshArg.auto).dataF).map toQ) with hpd
  unfold maskOf
  change (if p - epsTh = 0 then decide (toQ x = 0)
    else maskInside (p - epsTh) (toQ x)) = false
  by_cases h0 : p - epsTh = 0
  · rw [if_pos h0]
    have hpe : p = epsTh := by linarith
    have habs' : 0 < |toQ x| := by
      rw [habs, hpe]
      exact heps
    have : toQ x ≠ 0 := by
      intro hz
      rw [hz] at habs'
      simp at habs'
    simp [this]
  · rw [if_neg h0]
    have ht0 : 0 ≤ p - epsTh := by linarith
    unfold maskInside
    have hmin : min (-(p - epsTh)) (p - epsTh) = -(p - epsTh) :=
      min_eq_left (by linarith)
    have hmax : max (-(p - epsTh)) (p - epsTh) = p - epsTh :=
      max_eq_right (by linarith)
    rw [hmin, hmax, decide_eq_false_iff_not, ← abs_le, habs]
    linarith

theorem C6_auto_threshold_witness :
    ∃ i j, (saveSprite (fun i => i) false imgC6 Option.none Option.none
      ThreshArg.auto).mask i j = false := by
  apply (C6_auto_threshold (fun i => i) imgC6 Option.none Option.none).2.2
  · decide
  · have he : fastAbsPercentile
        (((saveSprite (fun i => i) false imgC6 Option.none Option.none
          ThreshArg.auto).dataF).map toQ) = 1 := by decide
    rw [he]
    norm_num [epsTh]

/-- C7: in `save_sprite`, a NaN supplied for `vmin` (resp. `vmax`) is
discarded with a warning, and the final value falls back to the computed
nan-safe minimum (resp. maximum) of the data; execution continues. -/
theorem C7_nan_vmin_vmax (rs : Img → Img) (img0 : Img) (th0 : ThreshArg) :
    (∀ vmax0 : Option F,
      (saveSprite rs false img0 vmax0 (Option.some F.nan) th0).warned = true ∧
      (saveSprite rs false img0 vmax0 (Option.some F.nan) th0).vmin =
        nanminF (saveSprite rs false img0 vmax0 (Option.some F.nan) th0).dataF) ∧
    (∀ vmin0 : Option F,
      (saveSprite rs false img0 (Option.some F.nan) vmin0 th0).warned = true ∧
      (saveSprite rs false img0 (Option.some F.nan) vmin0 th0).vmax =
        nanmaxF (saveSprite rs false img0 (Option.some F.nan) vmin0 th0).dataF) := by
  constructor
  · intro v
    rcases v with _ | x
    · exact ⟨rfl, rfl⟩
    · cases x <;> exact ⟨rfl, rfl⟩
  · intro v
    rcases v with _ | x
    · exact ⟨rfl, rfl⟩
    · cases x <;> exact ⟨rfl, rfl⟩

lemma substData_nx (img : Img) : (substData img).nx = img.nx := by
  unfold substData
  split <;> rfl

lemma substData_ny (img : Img) : (substData img).ny = img.ny := by
  unfold substData
  split <;> rfl

lemma substData_nz (img : Img) : (substData img).nz = img.nz := by
  unfold substData
  split <;> rfl

lemma substData_affine (img : Img) : (substData img).affine = img.affine := by
  unfold substData
  split <;> rfl

/-- C8: the JSON written by `save_sprite` is exactly
`{nbSlice: {X, Y, Z}, min, max, affine}` — `X`,`Y`,`Z` the axis extents of
the (resampled) volume, `min`/`max` the resolved `vmin`/`vmax`, and
`affine` the (resampled) volume's affine as a 4x4 nested array of numbers;
no other keys are emitted. -/
theorem C8_json_schema (rs : Img → Img) (resample : Bool) (img0 : Img)
    (vmax0 vmin0 : Option F) (th0 : ThreshArg) :
    (saveSprite rs resample img0 vmax0 vmin0 th0).jsonParams =
      JVal.jobj
        [("nbSlice", JVal.jobj
            [("X", JVal.jint (if resample then rs img0 else img0).nx),
             ("Y", JVal.jint (if resample then rs img0 else img0).ny),
             ("Z", JVal.jint (if resample then rs img0 else img0).nz)]),
         ("min", JVal.jnum (saveSprite rs resample img0 vmax0 vmin0 th0).vmin),
         ("max", JVal.jnum (saveSprite rs resample img0 vmax0 vmin0 th0).vmax),
         ("affine",
           JVal.jarr ((List.finRange 4).map fun i =>
             JVal.jarr ((List.finRange 4).map fun j =>
               JVal.jnum (F.num ((if resample then rs img0 else img0).affine i j)))))] := by
  have h0 : (saveSprite rs resample img0 vmax0 vmin0 th0).jsonParams =
      JVal.jobj
        [("nbSlice", JVal.jobj
            [("X", JVal.jint (substData (if resample then rs img0 else img0)).nx),
             ("Y", JVal.jint (substData (if resample then rs img0 else img0)).ny),
             ("Z", JVal.jint (substData (if resample then rs img0 else img0)).nz)]),
         ("min", JVal.jnum (saveSprite rs resample img0 vmax0 vmin0 th0).vmin),
         ("max", JVal.jnum (saveSprite rs resample img0 vmax0 vmin0 th0).vmax),
         ("affine", affineJson (substData (if resample then rs img0 else img0)).affine)] :=
    rfl
  rw [h0, substData_nx, substData_ny, substData_nz, substData_affine]
  rfl

/-- C4 (code behaviour at the failing input): when `output_json` is a path
string, the operations performed on the opened handle are exactly an open
and a write — `f.close` on the final line is an attribute access, never a
call, so no close is performed on any path, success included.  This
contradicts the claim that the handle is closed on every exit path. -/
theorem C4_json_handle_never_closed (rs : Img → Img) (resample : Bool) (img0 : Img)
    (vmax0 vmin0 : Option F) (th0 : ThreshArg) :
    (saveSprite rs resample img0 vmax0 vmin0 th0).jsonOps =
      [FileOp.openW,
       FileOp.write (saveSprite rs resample img0 vmax0 vmin0 th0).jsonParams] ∧
    FileOp.close ∉ (saveSprite rs resample img0 vmax0 vmin0 th0).jsonOps := by
  refine ⟨rfl, ?_⟩
  intro hmem
  have h0 : (saveSprite rs resample img0 vmax0 vmin0 th0).jsonOps =
      [FileOp.openW,
       FileOp.write (saveSprite rs resample img0 vmax0 vmin0 th0).jsonParams] := rfl
  rw [h0] at hmem
  simp [List.mem_cons] at hmem

/-- C9: in `view_stat_map`, whenever a background is supplied (the MNI
default or an image, i.e. not `None` and not `False`), the stat map is
resampled onto the resampled background's exact grid, so the two final
volumes have identical shape and affine; with no background the stat map is
only resampled to isotropic voxels on its own
(`stat_map_img = _resample_to_self(stat_map_img, ...)`). -/
theorem C9_overlay_grid_alignment (rs : Img → Img) (loadAnat : Img → Anat)
    (itp : Img → Img → ℕ → ℕ → ℕ → F) (mni stat : Img) (bg : BgArg) :
    ((bg = BgArg.mni ∨ ∃ i, bg = BgArg.image i) →
      ((viewStatMapImgs rs loadAnat itp mni stat bg).2.nx =
        (viewStatMapImgs rs loadAnat itp mni stat bg).1.nx ∧
       (viewStatMapImgs rs loadAnat itp mni stat bg).2.ny =
        (viewStatMapImgs rs loadAnat itp mni stat bg).1.ny ∧
       (viewStatMapImgs rs loadAnat itp mni stat bg).2.nz =
        (viewStatMapImgs rs loadAnat itp mni stat bg).1.nz ∧
       (viewStatMapImgs rs loadAnat itp mni stat bg).2.affine =
        (viewStatMapImgs rs loadAnat itp mni stat bg).1.affine)) ∧
    ((bg = BgArg.noneBg ∨ bg = BgArg.falseBg) →
      (viewStatMapImgs rs loadAnat itp mni stat bg).2 = rs stat) := by
  constructor
  · rintro (rfl | ⟨i, rfl⟩) <;> exact ⟨rfl, rfl, rfl, rfl⟩
  · rintro (rfl | rfl) <;> rfl

theorem C9_overlay_grid_alignment_witness :
    (viewStatMapImgs (fun i => i) (fun i => ⟨i, false, 0, 0⟩)
        (fun _ _ _ _ _ => F.num 0) imgC9bg imgC9 BgArg.mni).2.nx =
      (viewStatMapImgs (fun i => i) (fun i => ⟨i, false, 0, 0⟩)
        (fun _ _ _ _ _ => F.num 0) imgC9bg imgC9 BgArg.mni).1.nx ∧
    (viewStatMapImgs (fun i => i) (fun i => ⟨i, false, 0, 0⟩)
        (fun _ _ _ _ _ => F.num 0) imgC9bg imgC9 BgArg.mni).2.ny =
      (viewStatMapImgs (fun i => i) (fun i => ⟨i, false, 0, 0⟩)
        (fun _ _ _ _ _ => F.num 0) imgC9bg imgC9 BgArg.mni).1.ny ∧
    (viewStatMapImgs (fun i => i) (fun i => ⟨i, false, 0, 0⟩)
        (fun _ _ _ _ _ => F.num 0) imgC9bg imgC9 BgArg.mni).2.nz =
      (viewStatMapImgs (fun i => i) (fun i => ⟨i, false, 0, 0⟩)
        (fun _ _ _ _ _ => F.num 0) imgC9bg imgC9 BgArg.mni).1.nz ∧
    (viewStatMapImgs (fun i => i) (fun i => ⟨i, false, 0, 0⟩)
        (fun _ _ _ _ _ => F.num 0) imgC9bg imgC9 BgArg.mni).2.affine =
      (viewStatMapImgs (fun i => i) (fun i => ⟨i, false, 0, 0⟩)
        (fun _ _ _ _ _ => F.num 0) imgC9bg imgC9 BgArg.mni).1.affine :=
  (C9_overlay_grid_alignment (fun i => i) (fun i => ⟨i, false, 0, 0⟩)
    (fun _ _ _ _ _ => F.num 0) imgC9bg imgC9 BgArg.mni).1 (Or.inl rfl)

/-- C10: for every dict whose keys are exactly `'x'`, `'y'`, `'z'` and whose
three entries are Python ints (in particular the default
`{'x': 0, 'y': 0, 'z': 0}`), `Point3D.validate` does not return the value
but raises via `self.error`, because `isinstance(value[a], int) in value`
asks whether the boolean result is a *key* of the dict. -/
theorem C10_point3d_validate_rejects (d : List (PyV × PyV))
    (hkeys : ∀ kv ∈ d,
      kv.1 = PyV.pstr "x" ∨ kv.1 = PyV.pstr "y" ∨ kv.1 = PyV.pstr "z")
    (_hints : ∀ kv ∈ d, ∃ n, kv.2 = PyV.pint n)
    (_hx : dictContains d (PyV.pstr "x") = true)
    (_hy : dictContains d (PyV.pstr "y") = true)
    (_hz : dictContains d (PyV.pstr "z") = true) :
    point3dValidate d = Except.error () := by
  have hb : ∀ b : Bool, dictContains d (PyV.pbool b) = false := by
    intro b
    unfold dictContains
    rw [List.any_eq_false]
    intro kv hkv
    rcases hkeys kv hkv with h | h | h <;> rw [h] <;> simp [pyEq]
  have h2 : (["x", "y", "z"].all fun a =>
      dictContains d (PyV.pbool (isinstInt (dictGet d (PyV.pstr a))))) = false := by
    simp [List.all_cons, hb]
  unfold point3dValidate
  rw [h2, Bool.and_false]
  rfl

theorem C10_point3d_validate_rejects_witness :
    point3dValidate point3dDefault = Except.error () :=
  C10_point3d_validate_rejects point3dDefault
    (by decide)
    (by
      intro kv hkv
      simp only [point3dDefault, List.mem_cons, List.not_mem_nil, or_false] at hkv
      rcases hkv with rfl | rfl | rfl <;> exact ⟨0, rfl⟩)
    (by decide) (by decide) (by decide)
